import Mathlib

set_option autoImplicit false

/-!
Shallow embedding of the SuperSpreader trading engine core
(risk engine, portfolio, paper broker, tape iterator, market-making
quoter, settings validation), translated from the Python sources.
Prices, sizes and timestamps are modelled as rationals.
-/

namespace SuperSpreader

/-- Association-list lookup keyed by decidable equality
(models a Python dict read `d.get(k)`). -/
def lookupA {α β : Type} [DecidableEq α] : List (α × β) → α → Option β
  | [], _ => none
  | (a, b) :: t, k => if k = a then some b else lookupA t k

/-- Apply `f` to the value stored under key `k`, leaving everything else
unchanged (models in-place mutation of the object held in a Python dict). -/
def updateA {α β : Type} [DecidableEq α] : List (α × β) → α → (β → β) → List (α × β)
  | [], _, _ => []
  | (a, b) :: t, k, f =>
    if a = k then (a, f b) :: updateA t k f else (a, b) :: updateA t k f

/-- Dict assignment `d[k] = v`: replace the binding if the key is present,
otherwise append it (Python dicts preserve insertion order). -/
def insertA {α β : Type} [DecidableEq α] (l : List (α × β)) (k : α) (v : β) :
    List (α × β) :=
  match l with
  | [] => [(k, v)]
  | (a, b) :: t => if a = k then (a, v) :: t else (a, b) :: insertA t k v

/-- `utils/pricing.py` `clamp(x, lo, hi) = max(lo, min(hi, x))`. -/
def clamp (x lo hi : ℚ) : ℚ := max lo (min hi x)

/-- `trading/types.py` `Side = Literal["buy", "sell"]`. -/
inductive Side : Type
  | buy
  | sell
deriving DecidableEq

/-- `trading/types.py` `TopOfBook` (sizes and prices optional, `ts` present). -/
structure TopOfBook : Type where
  best_bid : Option ℚ
  best_bid_size : Option ℚ
  best_ask : Option ℚ
  best_ask_size : Option ℚ
  ts : ℚ
deriving DecidableEq

/-- `trading/types.py` `TradeTick`. -/
structure TradeTick : Type where
  market_id : String
  price : ℚ
  size : ℚ
  side : Side
  ts : ℚ
deriving DecidableEq

/-- `risk/portfolio.py` `Position`. -/
structure Position : Type where
  market_id : String
  event_id : String
  qty : ℚ := 0
  avg_price : ℚ := 0
  realized_pnl : ℚ := 0
  last_mark : ℚ := 0
  opened_ts : ℚ := 0
deriving DecidableEq

/-- `risk/portfolio.py` `Portfolio`: a dict `market_id → Position`. -/
structure Portfolio : Type where
  positions : List (String × Position) := []
deriving DecidableEq

/-- `trading/types.py` `Fill` (the random `fill_id` and the free-form `meta`
dict are bookkeeping and are not modelled). -/
structure Fill : Type where
  order_id : ℕ
  market_id : String
  side : Side
  price : ℚ
  size : ℚ
  ts : ℚ
deriving DecidableEq

/-- `risk/portfolio.py` `Portfolio.total_realized`. -/
def totalRealized (pf : Portfolio) : ℚ :=
  (pf.positions.map fun kv => kv.2.realized_pnl).sum

/-- `risk/portfolio.py` `Portfolio.apply_fill`. -/
def applyFill (pf : Portfolio) (fill : Fill) (event_id : String) : Portfolio :=
  let p0 : Position :=
    match lookupA pf.positions fill.market_id with
    | some p => p
    | none => { market_id := fill.market_id, event_id := event_id }
  let p1 : Position := { p0 with event_id := event_id }
  let signed_qty : ℚ := match fill.side with | .buy => fill.size | .sell => -fill.size
  let old_qty : ℚ := p1.qty
  let new_qty : ℚ := p1.qty + signed_qty
  let p2 : Position :=
    if p1.qty = 0 ∨ (p1.qty > 0 ∧ signed_qty > 0) ∨ (p1.qty < 0 ∧ signed_qty < 0) then
      let notional := |p1.qty| * p1.avg_price + |signed_qty| * fill.price
      let q := { p1 with
        qty := new_qty,
        avg_price := if new_qty ≠ 0 then notional / |new_qty| else 0 }
      if old_qty = 0 ∧ q.qty ≠ 0 then { q with opened_ts := fill.ts } else q
    else
      let closed := min |p1.qty| |signed_qty|
      let realized :=
        if p1.qty > 0 then p1.realized_pnl + (fill.price - p1.avg_price) * closed
        else p1.realized_pnl + (p1.avg_price - fill.price) * closed
      let q := { p1 with qty := new_qty, realized_pnl := realized }
      if q.qty = 0 then { q with avg_price := 0, opened_ts := 0 }
      else
        let q2 :=
          if (q.qty > 0 ∧ signed_qty > 0) ∨ (q.qty < 0 ∧ signed_qty < 0) then
            { q with avg_price := fill.price }
          else q
        if old_qty ≠ 0 ∧ (old_qty > 0 ∧ q2.qty < 0 ∨ old_qty < 0 ∧ q2.qty > 0) then
          { q2 with opened_ts := fill.ts }
        else q2
  { pf with positions := insertA pf.positions fill.market_id p2 }

/-- `risk/rules.py` `RiskCheck`. -/
structure RiskCheck : Type where
  ok : Bool
  reason : Option String := none
deriving DecidableEq

/-- `risk/rules.py` `RiskEngine` configuration knobs consulted by the rules
(fields of `Settings` read by `circuit_ok` / `pre_trade_check`). -/
structure RiskSettings : Type where
  max_feed_lag_secs : ℚ
  max_spread : ℚ
  max_open_positions : ℤ
  kill_switch : Bool
  max_pos_per_market : ℚ
  max_event_exposure : ℚ
  daily_loss_limit : ℚ
deriving DecidableEq

/-- `risk/rules.py` `RiskEngine.circuit_ok` (the call `time.time()` becomes
the explicit parameter `now`). -/
def circuitOk (st : RiskSettings) (now : ℚ) (tob : Option TopOfBook) : RiskCheck :=
  match tob with
  | none => ⟨false, some "no_top_of_book"⟩
  | some t =>
    if now - t.ts > st.max_feed_lag_secs then ⟨false, some "feed_lag"⟩
    else
      match t.best_bid, t.best_ask with
      | some bb, some ba =>
        if ba - bb < 0 then ⟨false, some "crossed_book"⟩
        else if ba - bb > st.max_spread then ⟨false, some "spread_too_wide"⟩
        else ⟨true, none⟩
      | _, _ => ⟨true, none⟩

/-- Current position quantity for a market (`portfolio.positions.get(market_id)`,
`0.0` when absent). -/
def curQty (pf : Portfolio) (market_id : String) : ℚ :=
  match lookupA pf.positions market_id with
  | none => 0
  | some p => p.qty

/-- `signed = size if side == "buy" else -size`. -/
def signedSize (side : Side) (size : ℚ) : ℚ :=
  match side with | .buy => size | .sell => -size

/-- `risk/rules.py` line 95: `is_reduce_only = abs(new_qty) < abs(cur_qty) or
(cur_qty != 0.0 and new_qty == 0.0)`. -/
def reduceOnlyCond (pf : Portfolio) (market_id : String) (side : Side) (size : ℚ) :
    Prop :=
  |curQty pf market_id + signedSize side size| < |curQty pf market_id| ∨
    (curQty pf market_id ≠ 0 ∧ curQty pf market_id + signedSize side size = 0)

instance (pf : Portfolio) (market_id : String) (side : Side) (size : ℚ) :
    Decidable (reduceOnlyCond pf market_id side size) := by
  unfold reduceOnlyCond; infer_instance

/-- Count of non-zero positions (`sum(1 for p in positions.values() if qty != 0)`). -/
def openCount (pf : Portfolio) : ℕ :=
  (pf.positions.filter fun kv => kv.2.qty ≠ 0).length

/-- Mark used by the risk rules: `last_mark if > 0 else avg_price`. -/
def markOf (p : Position) : ℚ :=
  if p.last_mark > 0 then p.last_mark else p.avg_price

/-- Event exposure sum over positions in the same event:
`abs(qty) * clamp(mark, 0, 1)`. -/
def eventExposure (pf : Portfolio) (event_id : String) : ℚ :=
  (pf.positions.map fun kv =>
    if kv.2.event_id = event_id then |kv.2.qty| * clamp (markOf kv.2) 0 1 else 0).sum

/-- Marked unrealized PnL used by the daily-loss rule:
`(last_mark or avg_price − avg_price) * qty` summed over positions. -/
def unrealMarked (pf : Portfolio) : ℚ :=
  (pf.positions.map fun kv => (markOf kv.2 - kv.2.avg_price) * kv.2.qty).sum

/-- `risk/rules.py` `RiskEngine.pre_trade_check` (rate-limited logging elided;
`time.time()` becomes the explicit parameter `now`). -/
def preTradeCheck (st : RiskSettings) (now : ℚ) (market_id event_id : String)
    (side : Side) (price size : ℚ) (tob : Option TopOfBook) (pf : Portfolio) :
    RiskCheck :=
  if size ≤ 0 then ⟨false, some "bad_size"⟩
  else if ¬(0 ≤ price ∧ price ≤ 1) then ⟨false, some "bad_price"⟩
  else
    let c := circuitOk st now tob
    if c.ok = false then c
    else
      let cur := curQty pf market_id
      let signed := signedSize side size
      let newQty := cur + signed
      if st.max_open_positions > 0 ∧ ¬reduceOnlyCond pf market_id side size ∧
          cur = 0 ∧ newQty ≠ 0 ∧ (openCount pf : ℤ) ≥ st.max_open_positions then
        ⟨false, some "max_open_positions"⟩
      else if st.kill_switch ∧ ¬reduceOnlyCond pf market_id side size then
        ⟨false, some "kill_switch"⟩
      else if |newQty| > st.max_pos_per_market then
        ⟨false, some "max_pos_per_market"⟩
      else if eventExposure pf event_id + |signed| * clamp price 0 1 >
          st.max_event_exposure then
        ⟨false, some "max_event_exposure"⟩
      else if totalRealized pf + unrealMarked pf < -st.daily_loss_limit ∧
          ¬reduceOnlyCond pf market_id side size then
        ⟨false, some "daily_loss_limit"⟩
      else ⟨true, none⟩

end SuperSpreader

namespace SuperSpreader

/-- C1 (amended): for a reduce-only order (|new_qty| < |cur_qty|, or
cur_qty ≠ 0 and new_qty = 0) with positive size, price in [0,1] and a TOB
passing the circuit checks, `pre_trade_check` never rejects with reason
`kill_switch`, `max_open_positions` or `daily_loss_limit`, regardless of the
kill-switch flag, the open-position count or the current total PnL
(it may still reject with `max_pos_per_market`). -/
theorem reduceOnly_never_rejected_kill_open_daily
    (st : RiskSettings) (now : ℚ) (market_id event_id : String) (side : Side)
    (price size : ℚ) (tob : TopOfBook) (pf : Portfolio)
    (hsize : 0 < size) (hlo : 0 ≤ price) (hhi : price ≤ 1)
    (hcirc : (circuitOk st now (some tob)).ok = true)
    (hred : reduceOnlyCond pf market_id side size) :
    (preTradeCheck st now market_id event_id side price size (some tob) pf).reason ∉
      ([some "kill_switch", some "max_open_positions", some "daily_loss_limit"] :
        List (Option String)) := by
  intro hmem
  simp only [preTradeCheck] at hmem
  split_ifs at hmem <;> simp_all

/-- C1 counterexample: a strictly reduce-only SELL (position +20 → +15) with
positive size, valid price and a TOB passing the circuit checks is rejected
with reason `max_pos_per_market` when the per-market cap is 10, because the
`max_pos_per_market` rule is not bypassed for reduce-only orders. -/
theorem reduceOnly_rejected_max_pos_counterexample :
    reduceOnlyCond ⟨[("m1", ⟨"m1", "e1", 20, 1/2, 0, 1/2, 0⟩)]⟩ "m1" .sell 5 ∧
    (circuitOk ⟨10, 1, 0, false, 10, 1000, 200⟩ 0
      (some ⟨some (49/100), some 10, some (51/100), some 10, 0⟩)).ok = true ∧
    preTradeCheck ⟨10, 1, 0, false, 10, 1000, 200⟩ 0 "m1" "e1" .sell (1/2) 5
      (some ⟨some (49/100), some 10, some (51/100), some 10, 0⟩)
      ⟨[("m1", ⟨"m1", "e1", 20, 1/2, 0, 1/2, 0⟩)]⟩ =
      ⟨false, some "max_pos_per_market"⟩ := by
  refine ⟨?_, ?_, ?_⟩
  · norm_num [reduceOnlyCond, curQty, signedSize, lookupA]
  · norm_num [circuitOk]
  · norm_num [preTradeCheck, circuitOk, reduceOnlyCond, curQty, signedSize,
      lookupA, openCount, eventExposure, markOf, unrealMarked, totalRealized,
      clamp]

/-- C1 witness: the amended theorem applied at a concrete reduce-only order
under an armed kill switch. -/
theorem reduceOnly_never_rejected_witness :
    (preTradeCheck ⟨10, 1, 0, true, 1000, 1000, 200⟩ 0 "m1" "e1" .sell (1/2) 5
      (some ⟨some (49/100), some 10, some (51/100), some 10, 0⟩)
      ⟨[("m1", ⟨"m1", "e1", 20, 1/2, 0, 1/2, 0⟩)]⟩).reason ∉
      ([some "kill_switch", some "max_open_positions", some "daily_loss_limit"] :
        List (Option String)) :=
  reduceOnly_never_rejected_kill_open_daily _ _ _ _ _ _ _ _ _
    (by norm_num) (by norm_num) (by norm_num)
    (by norm_num [circuitOk])
    (by norm_num [reduceOnlyCond, curQty, signedSize, lookupA])

end SuperSpreader

namespace SuperSpreader

theorem lookupA_insertA_self {α β : Type} [DecidableEq α]
    (l : List (α × β)) (k : α) (v : β) :
    lookupA (insertA l k v) k = some v := by
  induction l with
  | nil => simp [insertA, lookupA]
  | cons hd tl ih =>
    obtain ⟨a, b⟩ := hd
    by_cases hak : a = k
    · subst hak
      simp [insertA, lookupA]
    · simp only [insertA, if_neg hak, lookupA]
      rw [if_neg fun h => hak h.symm]
      exact ih

/-- C4: applying a fill in the opposite direction of a non-flat position
realizes PnL on the closed portion `min(|qty|, |signed|)` — for a long,
`(fill.price − avg_price) × closed`; for a short, `(avg_price − fill.price)
× closed` — updates `qty` to `qty + signed`, and: if the new qty is exactly 0
then `avg_price` and `opened_ts` become 0; if the qty flips sign through zero
then `avg_price` becomes the fill price and `opened_ts` the fill's ts;
otherwise both are unchanged. -/
theorem applyFill_opposite_direction
    (pf : Portfolio) (fill : Fill) (event_id : String) (p : Position)
    (hp : lookupA pf.positions fill.market_id = some p)
    (hq : p.qty ≠ 0) (hsz : 0 < fill.size)
    (hop : (0 < p.qty ∧ fill.side = .sell) ∨ (p.qty < 0 ∧ fill.side = .buy)) :
    lookupA (applyFill pf fill event_id).positions fill.market_id =
      some { market_id := p.market_id
             event_id := event_id
             qty := p.qty + signedSize fill.side fill.size
             avg_price :=
               if p.qty + signedSize fill.side fill.size = 0 then 0
               else if 0 < p.qty ∧ p.qty + signedSize fill.side fill.size < 0 ∨
                   p.qty < 0 ∧ 0 < p.qty + signedSize fill.side fill.size then
                 fill.price
               else p.avg_price
             realized_pnl :=
               if p.qty > 0 then
                 p.realized_pnl + (fill.price - p.avg_price) *
                   min |p.qty| |signedSize fill.side fill.size|
               else
                 p.realized_pnl + (p.avg_price - fill.price) *
                   min |p.qty| |signedSize fill.side fill.size|
             last_mark := p.last_mark
             opened_ts :=
               if p.qty + signedSize fill.side fill.size = 0 then 0
               else if 0 < p.qty ∧ p.qty + signedSize fill.side fill.size < 0 ∨
                   p.qty < 0 ∧ 0 < p.qty + signedSize fill.side fill.size then
                 fill.ts
               else p.opened_ts } := by
  unfold applyFill
  rw [hp]
  rcases hop with ⟨hq0, hs⟩ | ⟨hq0, hs⟩ <;> rw [hs] <;>
    simp only [signedSize, lookupA_insertA_self, Option.some.injEq] <;>
    rw [if_neg (by rintro (h | ⟨h1, h2⟩ | ⟨h1, h2⟩) <;> linarith)]
  · -- long position, SELL fill: signed = -fill.size < 0
    by_cases hz : p.qty + -fill.size = 0
    · simp only [if_pos hz, if_pos hq0, gt_iff_lt]
    · simp only [if_neg hz]
      by_cases hflip : p.qty + -fill.size < 0
      · simp only [if_pos (show p.qty + -fill.size > 0 ∧ (-fill.size : ℚ) > 0 ∨
            p.qty + -fill.size < 0 ∧ (-fill.size : ℚ) < 0 from
            Or.inr ⟨hflip, by linarith⟩),
          if_pos (show p.qty ≠ 0 ∧ (p.qty > 0 ∧ p.qty + -fill.size < 0 ∨
            p.qty < 0 ∧ p.qty + -fill.size > 0) from ⟨hq, Or.inl ⟨hq0, hflip⟩⟩),
          if_pos (show 0 < p.qty ∧ p.qty + -fill.size < 0 ∨
            p.qty < 0 ∧ 0 < p.qty + -fill.size from Or.inl ⟨hq0, hflip⟩),
          if_pos hq0, gt_iff_lt]
      · simp only [if_neg (show ¬(p.qty + -fill.size > 0 ∧ (-fill.size : ℚ) > 0 ∨
            p.qty + -fill.size < 0 ∧ (-fill.size : ℚ) < 0) from by
            rintro (⟨h1, h2⟩ | ⟨h1, h2⟩) <;> linarith),
          if_neg (show ¬(p.qty ≠ 0 ∧ (p.qty > 0 ∧ p.qty + -fill.size < 0 ∨
            p.qty < 0 ∧ p.qty + -fill.size > 0)) from by
            rintro ⟨-, (⟨h1, h2⟩ | ⟨h1, h2⟩)⟩ <;> linarith),
          if_neg (show ¬(0 < p.qty ∧ p.qty + -fill.size < 0 ∨
            p.qty < 0 ∧ 0 < p.qty + -fill.size) from by
            rintro (⟨h1, h2⟩ | ⟨h1, h2⟩) <;> linarith),
          if_pos hq0, gt_iff_lt]
  · -- short position, BUY fill: signed = fill.size > 0
    by_cases hz : p.qty + fill.size = 0
    · simp only [if_pos hz, if_neg (show ¬(p.qty > 0) from by linarith), gt_iff_lt]
    · simp only [if_neg hz]
      by_cases hflip : 0 < p.qty + fill.size
      · simp only [if_pos (show p.qty + fill.size > 0 ∧ (fill.size : ℚ) > 0 ∨
            p.qty + fill.size < 0 ∧ (fill.size : ℚ) < 0 from Or.inl ⟨hflip, hsz⟩),
          if_pos (show p.qty ≠ 0 ∧ (p.qty > 0 ∧ p.qty + fill.size < 0 ∨
            p.qty < 0 ∧ p.qty + fill.size > 0) from ⟨hq, Or.inr ⟨hq0, hflip⟩⟩),
          if_pos (show 0 < p.qty ∧ p.qty + fill.size < 0 ∨
            p.qty < 0 ∧ 0 < p.qty + fill.size from Or.inr ⟨hq0, hflip⟩),
          if_neg (show ¬(p.qty > 0) from by linarith), gt_iff_lt]
      · simp only [if_neg (show ¬(p.qty + fill.size > 0 ∧ (fill.size : ℚ) > 0 ∨
            p.qty + fill.size < 0 ∧ (fill.size : ℚ) < 0) from by
            rintro (⟨h1, h2⟩ | ⟨h1, h2⟩) <;> linarith),
          if_neg (show ¬(p.qty ≠ 0 ∧ (p.qty > 0 ∧ p.qty + fill.size < 0 ∨
            p.qty < 0 ∧ p.qty + fill.size > 0)) from by
            rintro ⟨-, (⟨h1, h2⟩ | ⟨h1, h2⟩)⟩ <;> linarith),
          if_neg (show ¬(0 < p.qty ∧ p.qty + fill.size < 0 ∨
            p.qty < 0 ∧ 0 < p.qty + fill.size) from by
            rintro (⟨h1, h2⟩ | ⟨h1, h2⟩) <;> linarith),
          if_neg (show ¬(p.qty > 0) from by linarith), gt_iff_lt]

/-- C4 witness: the theorem applied to a long position of +10 at 0.5 hit by a
SELL fill of 4 at 0.6: closed portion 4, realized 0.4, qty 6, avg and
opened_ts unchanged. -/
theorem applyFill_opposite_direction_witness :
    lookupA (applyFill ⟨[("m1", ⟨"m1", "e1", 10, 1/2, 0, 0, 7⟩)]⟩
        ⟨0, "m1", .sell, 3/5, 4, 9⟩ "e1").positions "m1" =
      some ⟨"m1", "e1", 6, 1/2, 2/5, 0, 7⟩ := by
  have h := applyFill_opposite_direction ⟨[("m1", ⟨"m1", "e1", 10, 1/2, 0, 0, 7⟩)]⟩
    ⟨0, "m1", .sell, 3/5, 4, 9⟩ "e1" ⟨"m1", "e1", 10, 1/2, 0, 0, 7⟩
    (by simp [lookupA]) (by norm_num) (by norm_num) (Or.inl ⟨by norm_num, rfl⟩)
  rw [h]
  norm_num [signedSize, abs_of_pos, Position.mk.injEq]
end SuperSpreader

namespace SuperSpreader

/-- `trading/types.py` `Order.status` values (`"open"` is modelled by the
constructor `opened`, since `open` is reserved in Lean). -/
inductive OrderStatus : Type
  | opened
  | filled
  | cancelled
  | rejected
deriving DecidableEq

/-- `trading/types.py` `Order` (the random uuid `order_id` is modelled as the
broker's counter value). -/
structure Order : Type where
  order_id : ℕ
  market_id : String
  side : Side
  price : ℚ
  size : ℚ
  created_ts : ℚ
  status : OrderStatus
  filled_size : ℚ := 0
deriving DecidableEq

/-- `execution/base.py` `OrderRequest` (`meta` not modelled). -/
structure OrderRequest : Type where
  market_id : String
  side : Side
  price : ℚ
  size : ℚ
deriving DecidableEq

/-- `execution/paper.py` `PaperBroker` in-memory state: `_orders`,
`_by_market`, `_last_tob`, the configured fill model and `min_rest_secs`;
fresh uuids are modelled by the counter `next_id`. -/
structure BrokerState : Type where
  fill_model : String
  min_rest_secs : ℚ
  orders : List (ℕ × Order) := []
  by_market : List (String × List ℕ) := []
  last_tob : List (String × TopOfBook) := []
  next_id : ℕ := 0
deriving DecidableEq

/-- `execution/paper.py` `PaperBroker.place_limit` (persistence elided;
`time.time()` is the parameter `now`). -/
def placeLimit (s : BrokerState) (req : OrderRequest) (now : ℚ) :
    Order × BrokerState :=
  let oid := s.next_id
  let o : Order := ⟨oid, req.market_id, req.side, req.price, req.size, now, .opened, 0⟩
  (o, { s with
    orders := (oid, o) :: s.orders
    by_market :=
      match lookupA s.by_market req.market_id with
      | none => insertA s.by_market req.market_id [oid]
      | some l => insertA s.by_market req.market_id (l ++ [oid])
    next_id := oid + 1 })

/-- `execution/paper.py` `PaperBroker.cancel`: no-op unless the order exists
and is open; otherwise transitions it to cancelled. -/
def cancel (s : BrokerState) (oid : ℕ) : BrokerState :=
  match lookupA s.orders oid with
  | none => s
  | some o =>
    if o.status = .opened then
      { s with orders := updateA s.orders oid fun o => { o with status := .cancelled } }
    else s

/-- `execution/paper.py` `PaperBroker.cancel_all_market`. -/
def cancelAllMarket (s : BrokerState) (market_id : String) : BrokerState :=
  ((lookupA s.by_market market_id).getD []).foldl cancel s

/-- Float-comparison epsilon used by `on_book` (`eps = 1e-4`). -/
def bookEps : ℚ := 1/10000

/-- The spread-crossing fill price shared by the `on_book_cross` model and the
taker-style branch of `maker_touch` (paper.py lines 108–113 and 120–123):
a BUY fills against `best_ask` when `price ≥ ask`, at `ask` when strictly
crossed on entry, else at the limit; symmetric for SELL against `best_bid`. -/
def crossFillPrice (tob : TopOfBook) (o : Order) : Option ℚ :=
  match o.side with
  | .buy =>
    match tob.best_ask with
    | some ask =>
      if o.price ≥ ask then some (if o.price > ask then ask else o.price) else none
    | none => none
  | .sell =>
    match tob.best_bid with
    | some bid =>
      if o.price ≤ bid then some (if o.price < bid then bid else o.price) else none
    | none => none

/-- Per-order fill price decision of `PaperBroker.on_book` for the active
model (`on_book_cross`, else the `maker_touch` branch with its passive
touch-move rule against `prev_tob`). -/
def bookFillPrice (model : String) (tob : TopOfBook) (prev : Option TopOfBook)
    (o : Order) : Option ℚ :=
  if model = "on_book_cross" then crossFillPrice tob o
  else
    match crossFillPrice tob o with
    | some p => some p
    | none =>
      match prev with
      | none => none
      | some pt =>
        match o.side with
        | .buy =>
          match pt.best_bid, tob.best_bid with
          | some pb, some nb =>
            if |o.price - pb| ≤ bookEps ∧ nb < o.price - bookEps then some o.price
            else none
          | _, _ => none
        | .sell =>
          match pt.best_ask, tob.best_ask with
          | some pa, some na =>
            if |o.price - pa| ≤ bookEps ∧ na > o.price + bookEps then some o.price
            else none
          | _, _ => none

/-- Per-order fill price decision of `PaperBroker.on_trade` under
`trade_through`: a resting bid fills only on a sell print at/below it; a
resting ask only on a buy print at/above it; always at the limit price. -/
def tradeFillPrice (trade : TradeTick) (o : Order) : Option ℚ :=
  match o.side with
  | .buy => if trade.side = .sell ∧ trade.price ≤ o.price then some o.price else none
  | .sell => if trade.side = .buy ∧ trade.price ≥ o.price then some o.price else none

/-- The `min_rest_secs` gate: an order not yet rested long enough is skipped. -/
def restSkip (min_rest now : ℚ) (o : Order) : Prop :=
  min_rest > 0 ∧ now - o.created_ts < min_rest

instance (min_rest now : ℚ) (o : Order) : Decidable (restSkip min_rest now o) := by
  unfold restSkip; infer_instance

/-- The all-or-nothing fill mutation: `filled_size ← size`, `status ← filled`. -/
def fillO (o : Order) : Order := { o with filled_size := o.size, status := .filled }

/-- One iteration of the order loop in `on_book` / `on_trade`: skip missing,
non-open or insufficiently rested orders; otherwise consult `fn` for a fill
price and, when one is produced, emit the all-or-nothing fill and mark the
order filled. -/
def fillStep (min_rest now : ℚ) (fn : Order → Option ℚ)
    (acc : List (ℕ × Order) × List Fill) (oid : ℕ) :
    List (ℕ × Order) × List Fill :=
  match lookupA acc.1 oid with
  | none => acc
  | some o =>
    if o.status ≠ .opened then acc
    else if restSkip min_rest now o then acc
    else
      match fn o with
      | none => acc
      | some px =>
        (updateA acc.1 oid fillO,
          acc.2 ++ [⟨o.order_id, o.market_id, o.side, px, o.size - o.filled_size, now⟩])

/-- `execution/paper.py` `PaperBroker.on_book`: early return for foreign fill
models (without seeding `last_tob`); otherwise read `prev_tob`, record the new
TOB, and run the fill loop over the market's orders. -/
def onBook (s : BrokerState) (market_id : String) (tob : TopOfBook) (now : ℚ) :
    List Fill × BrokerState :=
  if s.fill_model ≠ "on_book_cross" ∧ s.fill_model ≠ "maker_touch" then ([], s)
  else
    let prev := lookupA s.last_tob market_id
    let oids := (lookupA s.by_market market_id).getD []
    let res := oids.foldl
      (fillStep s.min_rest_secs now (bookFillPrice s.fill_model tob prev))
      (s.orders, [])
    (res.2, { s with orders := res.1, last_tob := insertA s.last_tob market_id tob })

/-- `execution/paper.py` `PaperBroker.on_trade`: only the `trade_through`
model reacts to trade prints. -/
def onTrade (s : BrokerState) (market_id : String) (trade : TradeTick) (now : ℚ) :
    List Fill × BrokerState :=
  if s.fill_model ≠ "trade_through" then ([], s)
  else
    let oids := (lookupA s.by_market market_id).getD []
    let res := oids.foldl (fillStep s.min_rest_secs now (tradeFillPrice trade))
      (s.orders, [])
    (res.2, { s with orders := res.1 })

/-- A broker API call (the operations of `execution/paper.py`). -/
inductive BrokerOp : Type
  | place (req : OrderRequest) (now : ℚ)
  | cancelOp (oid : ℕ)
  | cancelAll (market_id : String)
  | book (market_id : String) (tob : TopOfBook) (now : ℚ)
  | trade (market_id : String) (t : TradeTick) (now : ℚ)

/-- State transition of a single broker operation. -/
def applyOp (s : BrokerState) : BrokerOp → BrokerState
  | .place req now => (placeLimit s req now).2
  | .cancelOp oid => cancel s oid
  | .cancelAll m => cancelAllMarket s m
  | .book m tob now => (onBook s m tob now).2
  | .trade m t now => (onTrade s m t now).2

/-- A sequence of broker operations. -/
def applyOps (s : BrokerState) (ops : List BrokerOp) : BrokerState :=
  ops.foldl applyOp s

theorem lookupA_updateA_self {α β : Type} [DecidableEq α]
    (l : List (α × β)) (k : α) (f : β → β) :
    lookupA (updateA l k f) k = (lookupA l k).map f := by
  induction l with
  | nil => simp [updateA, lookupA]
  | cons hd tl ih =>
    obtain ⟨a, b⟩ := hd
    by_cases hak : a = k
    · subst hak
      simp [updateA, lookupA]
    · simp only [updateA, if_neg hak, lookupA]
      rw [if_neg fun h => hak h.symm, if_neg fun h => hak h.symm]
      exact ih

theorem lookupA_updateA_ne {α β : Type} [DecidableEq α]
    (l : List (α × β)) (k k' : α) (f : β → β) (h : k' ≠ k) :
    lookupA (updateA l k f) k' = lookupA l k' := by
  induction l with
  | nil => simp [updateA]
  | cons hd tl ih =>
    obtain ⟨a, b⟩ := hd
    by_cases hak : a = k
    · subst hak
      simp only [updateA, if_pos rfl, lookupA]
      rw [if_neg h, if_neg h]
      exact ih
    · simp only [updateA, if_neg hak, lookupA]
      by_cases hk' : k' = a
      · rw [if_pos hk', if_pos hk']
      · rw [if_neg hk', if_neg hk']
        exact ih

theorem fillO_idem (o : Order) : fillO (fillO o) = fillO o := rfl

theorem fillO_status (o : Order) : (fillO o).status = .filled := rfl

end SuperSpreader

namespace SuperSpreader

theorem fillStep_fst_cases (mr now : ℚ) (fn : Order → Option ℚ)
    (acc : List (ℕ × Order) × List Fill) (a : ℕ) :
    fillStep mr now fn acc a = acc ∨
    ((fillStep mr now fn acc a).1 = updateA acc.1 a fillO ∧
      ∃ o, lookupA acc.1 a = some o ∧ o.status = .opened ∧
        ¬restSkip mr now o ∧ fn o ≠ none) := by
  rcases hl : lookupA acc.1 a with _ | oa
  · left; simp [fillStep, hl]
  · by_cases h1 : oa.status = .opened
    · by_cases h2 : restSkip mr now oa
      · left; simp [fillStep, hl, h1, h2]
      · rcases hf : fn oa with _ | px
        · left; simp [fillStep, hl, h1, h2, hf]
        · right
          constructor
          · simp [fillStep, hl, h1, h2, hf]
          · exact ⟨oa, rfl, h1, h2, by simp [hf]⟩
    · left; simp [fillStep, hl, h1]

theorem foldFill_lookup_or_filled (mr now : ℚ) (fn : Order → Option ℚ)
    (oids : List ℕ) (acc : List (ℕ × Order) × List Fill) (oid : ℕ) (o : Order)
    (h : lookupA acc.1 oid = some o) :
    lookupA (oids.foldl (fillStep mr now fn) acc).1 oid = some o ∨
    lookupA (oids.foldl (fillStep mr now fn) acc).1 oid = some (fillO o) := by
  induction oids generalizing acc o with
  | nil => exact Or.inl h
  | cons a t ih =>
    simp only [List.foldl_cons]
    rcases fillStep_fst_cases mr now fn acc a with heq | ⟨heq, -⟩
    · rw [heq]; exact ih acc o h
    · by_cases hoa : oid = a
      · subst hoa
        have h2 : lookupA (fillStep mr now fn acc oid).1 oid = some (fillO o) := by
          rw [heq, lookupA_updateA_self, h]
          rfl
        rcases ih (fillStep mr now fn acc oid) (fillO o) h2 with h3 | h3
        · exact Or.inr h3
        · exact Or.inr (by rwa [fillO_idem] at h3)
      · have h2 : lookupA (fillStep mr now fn acc a).1 oid = some o := by
          rw [heq, lookupA_updateA_ne _ _ _ _ hoa]; exact h
        exact ih _ o h2

theorem foldFill_lookup_none (mr now : ℚ) (fn : Order → Option ℚ)
    (oids : List ℕ) (acc : List (ℕ × Order) × List Fill) (oid : ℕ)
    (h : lookupA acc.1 oid = none) :
    lookupA (oids.foldl (fillStep mr now fn) acc).1 oid = none := by
  induction oids generalizing acc with
  | nil => exact h
  | cons a t ih =>
    simp only [List.foldl_cons]
    apply ih
    rcases fillStep_fst_cases mr now fn acc a with heq | ⟨heq, -⟩
    · rw [heq]; exact h
    · by_cases hoa : oid = a
      · subst hoa
        rw [heq, lookupA_updateA_self, h]
        rfl
      · rw [heq, lookupA_updateA_ne _ _ _ _ hoa]; exact h

theorem foldFill_open_skip (mr now : ℚ) (fn : Order → Option ℚ)
    (oids : List ℕ) (acc : List (ℕ × Order) × List Fill) (oid : ℕ)
    (hmem : oid ∈ oids) (o' : Order)
    (hfin : lookupA (oids.foldl (fillStep mr now fn) acc).1 oid = some o')
    (hopen : o'.status = .opened) :
    restSkip mr now o' ∨ fn o' = none := by
  induction oids generalizing acc with
  | nil => cases hmem
  | cons a t ih =>
    simp only [List.foldl_cons] at hfin
    by_cases hoa : oid = a
    · subst hoa
      rcases hl : lookupA acc.1 oid with _ | oa
      · rw [foldFill_lookup_none mr now fn t _ oid (by
          rcases fillStep_fst_cases mr now fn acc oid with heq | ⟨heq, -⟩
          · rw [heq]; exact hl
          · rw [heq, lookupA_updateA_self, hl]
            rfl)] at hfin
        cases hfin
      · by_cases h1 : oa.status = .opened
        · by_cases h2 : restSkip mr now oa
          · have hstep : fillStep mr now fn acc oid = acc := by
              simp [fillStep, hl, h1, h2]
            rw [hstep] at hfin
            rcases foldFill_lookup_or_filled mr now fn t acc oid oa hl with h3 | h3
            · rw [hfin] at h3
              cases h3
              exact Or.inl h2
            · rw [hfin] at h3
              cases h3
              rw [fillO_status] at hopen
              cases hopen
          · rcases hf : fn oa with _ | px
            · have hstep : fillStep mr now fn acc oid = acc := by
                simp [fillStep, hl, h1, h2, hf]
              rw [hstep] at hfin
              rcases foldFill_lookup_or_filled mr now fn t acc oid oa hl with h3 | h3
              · rw [hfin] at h3
                cases h3
                exact Or.inr hf
              · rw [hfin] at h3
                cases h3
                rw [fillO_status] at hopen
                cases hopen
            · have hstep : (fillStep mr now fn acc oid).1 = updateA acc.1 oid fillO := by
                simp [fillStep, hl, h1, h2, hf]
              have h2' : lookupA (fillStep mr now fn acc oid).1 oid = some (fillO oa) := by
                rw [hstep, lookupA_updateA_self, hl]
                rfl
              rcases foldFill_lookup_or_filled mr now fn t _ oid (fillO oa) h2' with h3 | h3
              · rw [hfin] at h3
                cases h3
                rw [fillO_status] at hopen
                cases hopen
              · rw [fillO_idem] at h3
                rw [hfin] at h3
                cases h3
                rw [fillO_status] at hopen
                cases hopen
        · have hstep : fillStep mr now fn acc oid = acc := by
            simp [fillStep, hl, h1]
          rw [hstep] at hfin
          rcases foldFill_lookup_or_filled mr now fn t acc oid oa hl with h3 | h3
          · rw [hfin] at h3
            cases h3
            exact absurd hopen h1
          · rw [hfin] at h3
            cases h3
            rw [fillO_status] at hopen
            cases hopen
    · have hmem' : oid ∈ t := by
        rcases List.mem_cons.mp hmem with h | h
        · exact absurd h hoa
        · exact h
      exact ih _ hmem' hfin

theorem foldFill_no_fill (mr now : ℚ) (fn : Order → Option ℚ)
    (oids : List ℕ) (acc : List (ℕ × Order) × List Fill)
    (H : ∀ oid ∈ oids, ∀ o, lookupA acc.1 oid = some o → o.status = .opened →
      ¬restSkip mr now o → fn o = none) :
    oids.foldl (fillStep mr now fn) acc = acc := by
  induction oids with
  | nil => rfl
  | cons a t ih =>
    have hstep : fillStep mr now fn acc a = acc := by
      rcases hl : lookupA acc.1 a with _ | oa
      · simp [fillStep, hl]
      · by_cases h1 : oa.status = .opened
        · by_cases h2 : restSkip mr now oa
          · simp [fillStep, hl, h1, h2]
          · simp [fillStep, hl, h1, h2,
              H a (List.mem_cons_self a t) oa hl h1 h2]
        · simp [fillStep, hl, h1]
    simp only [List.foldl_cons, hstep]
    exact ih fun oid hm o ho => H oid (List.mem_cons_of_mem a hm) o ho

end SuperSpreader

namespace SuperSpreader

theorem foldFill_preserves_nonopen (mr now : ℚ) (fn : Order → Option ℚ)
    (oids : List ℕ) (acc : List (ℕ × Order) × List Fill) (oid : ℕ) (o : Order)
    (h : lookupA acc.1 oid = some o) (hst : o.status ≠ .opened) :
    lookupA (oids.foldl (fillStep mr now fn) acc).1 oid = some o := by
  induction oids generalizing acc with
  | nil => exact h
  | cons a t ih =>
    simp only [List.foldl_cons]
    apply ih
    rcases fillStep_fst_cases mr now fn acc a with heq | ⟨heq, o1, hl1, hop1, -, -⟩
    · rw [heq]; exact h
    · by_cases hoa : oid = a
      · subst hoa
        rw [h] at hl1
        cases hl1
        exact absurd hop1 hst
      · rw [heq, lookupA_updateA_ne _ _ _ _ hoa]; exact h

theorem foldFill_lookup_some_inv (mr now : ℚ) (fn : Order → Option ℚ)
    (oids : List ℕ) (acc : List (ℕ × Order) × List Fill) (oid : ℕ) (o' : Order)
    (h : lookupA (oids.foldl (fillStep mr now fn) acc).1 oid = some o') :
    ∃ o0, lookupA acc.1 oid = some o0 ∧ (o' = o0 ∨ o' = fillO o0) := by
  induction oids generalizing acc with
  | nil => exact ⟨o', h, Or.inl rfl⟩
  | cons a t ih =>
    simp only [List.foldl_cons] at h
    obtain ⟨o1, h1, h2⟩ := ih _ h
    rcases fillStep_fst_cases mr now fn acc a with heq | ⟨heq, -⟩
    · rw [heq] at h1; exact ⟨o1, h1, h2⟩
    · by_cases hoa : oid = a
      · subst hoa
        rw [heq, lookupA_updateA_self] at h1
        rcases h0 : lookupA acc.1 oid with _ | o0
        · rw [h0] at h1; cases h1
        · rw [h0] at h1
          have h3 : o1 = fillO o0 := by
            simpa using h1.symm
          refine ⟨o0, rfl, Or.inr ?_⟩
          rcases h2 with h2 | h2
          · rw [h2, h3]
          · rw [h2, h3, fillO_idem]
      · rw [heq, lookupA_updateA_ne _ _ _ _ hoa] at h1
        exact ⟨o1, h1, h2⟩

theorem bookFillPrice_prev_any (model : String) (tob : TopOfBook)
    (prev : Option TopOfBook) (o : Order) (hm : model = "on_book_cross") :
    bookFillPrice model tob prev o = crossFillPrice tob o := by
  simp [bookFillPrice, hm]

theorem bookFillPrice_no_prev (model : String) (tob : TopOfBook) (o : Order) :
    bookFillPrice model tob none o = crossFillPrice tob o := by
  unfold bookFillPrice
  split_ifs
  · rfl
  · rcases hc : crossFillPrice tob o with _ | p <;> simp [hc]

/-- C10: `place_limit` returns an order with status `open` and `filled_size`
0 carrying the requested `market_id`, `side`, `price` and `size`; the new
order is recorded as open in the blotter, and placement itself produces no
fill: even when the request crosses the broker's last recorded TOB for the
market, the fill is produced only by the next `on_book` call (shown here for
a market with no other orders under `on_book_cross` with no rest period). -/
theorem placeLimit_opens_no_fill (s : BrokerState) (req : OrderRequest) (now : ℚ) :
    (placeLimit s req now).1 =
      ⟨s.next_id, req.market_id, req.side, req.price, req.size, now, .opened, 0⟩ ∧
    lookupA (placeLimit s req now).2.orders s.next_id =
      some ⟨s.next_id, req.market_id, req.side, req.price, req.size, now, .opened, 0⟩ ∧
    (∀ tob now', s.fill_model = "on_book_cross" → s.min_rest_secs = 0 →
      lookupA s.by_market req.market_id = none →
      (onBook (placeLimit s req now).2 req.market_id tob now').1 =
        match crossFillPrice tob
            ⟨s.next_id, req.market_id, req.side, req.price, req.size, now, .opened, 0⟩ with
        | some px => [⟨s.next_id, req.market_id, req.side, px, req.size, now'⟩]
        | none => []) := by
  refine ⟨rfl, by simp [placeLimit, lookupA], ?_⟩
  intro tob now' hm hr hbm
  simp only [placeLimit, onBook, hm, hbm]
  norm_num
  rw [lookupA_insertA_self]
  simp only [Option.getD_some, List.foldl_cons, List.foldl_nil]
  have hlook : lookupA ((s.next_id,
      (⟨s.next_id, req.market_id, req.side, req.price, req.size, now, .opened, 0⟩ : Order))
        :: s.orders) s.next_id =
      some ⟨s.next_id, req.market_id, req.side, req.price, req.size, now, .opened, 0⟩ := by
    simp [lookupA]
  simp only [fillStep, hlook, hr]
  rw [bookFillPrice_prev_any _ _ _ _ rfl]
  rcases hc : crossFillPrice tob
      ⟨s.next_id, req.market_id, req.side, req.price, req.size, now, .opened, 0⟩ with _ | px
  · simp [restSkip]
  · simp [restSkip]

/-- C10 witness: placing a BUY at 0.52 size 10 while the last recorded TOB has
ask 0.50: the placement returns an open, unfilled order and the immediately
following `on_book` at the same TOB fills it (at the ask). -/
theorem placeLimit_opens_no_fill_witness :
    (placeLimit ⟨"on_book_cross", 0, [], [], [("m1", ⟨some (49/100), some 1, some (1/2), some 1, 0⟩)], 0⟩
        ⟨"m1", .buy, 52/100, 10⟩ 1).1 =
      ⟨0, "m1", .buy, 52/100, 10, 1, .opened, 0⟩ ∧
    lookupA (placeLimit ⟨"on_book_cross", 0, [], [], [("m1", ⟨some (49/100), some 1, some (1/2), some 1, 0⟩)], 0⟩
        ⟨"m1", .buy, 52/100, 10⟩ 1).2.orders 0 =
      some ⟨0, "m1", .buy, 52/100, 10, 1, .opened, 0⟩ ∧
    (onBook (placeLimit ⟨"on_book_cross", 0, [], [], [("m1", ⟨some (49/100), some 1, some (1/2), some 1, 0⟩)], 0⟩
        ⟨"m1", .buy, 52/100, 10⟩ 1).2 "m1" ⟨some (49/100), some 1, some (1/2), some 1, 0⟩ 1).1 =
      [⟨0, "m1", .buy, 1/2, 10, 1⟩] := by
  obtain ⟨h1, h2, h3⟩ := placeLimit_opens_no_fill
    ⟨"on_book_cross", 0, [], [], [("m1", ⟨some (49/100), some 1, some (1/2), some 1, 0⟩)], 0⟩
    ⟨"m1", .buy, 52/100, 10⟩ 1
  refine ⟨h1, h2, ?_⟩
  rw [h3 ⟨some (49/100), some 1, some (1/2), some 1, 0⟩ 1 rfl rfl (by simp [lookupA])]
  norm_num [crossFillPrice]

/-- C5: under `on_book_cross`, an open, sufficiently rested order fills
exactly when the TOB crosses it — a BUY when `best_ask` is present with
`best_ask ≤ price` (at `best_ask` if `price > best_ask`, else at `price`),
a SELL when `best_bid` is present with `best_bid ≥ price` (at `best_bid` if
`price < best_bid`, else at `price`) — always for its full remaining size. -/
theorem onBookCross_fill_iff_crossed
    (s : BrokerState) (market_id : String) (tob : TopOfBook) (now : ℚ)
    (oid : ℕ) (o : Order)
    (hm : s.fill_model = "on_book_cross")
    (ho : s.orders = [(oid, o)])
    (hbm : lookupA s.by_market market_id = some [oid])
    (hopen : o.status = .opened)
    (hrest : ¬restSkip s.min_rest_secs now o) :
    (onBook s market_id tob now).1 =
      match o.side with
      | .buy =>
        match tob.best_ask with
        | some ask =>
          if ask ≤ o.price then
            [⟨o.order_id, o.market_id, o.side,
              if ask < o.price then ask else o.price, o.size - o.filled_size, now⟩]
          else []
        | none => []
      | .sell =>
        match tob.best_bid with
        | some bid =>
          if o.price ≤ bid then
            [⟨o.order_id, o.market_id, o.side,
              if o.price < bid then bid else o.price, o.size - o.filled_size, now⟩]
          else []
        | none => []
      := by
  simp only [onBook, hm, hbm]
  norm_num
  have hlook : lookupA s.orders oid = some o := by simp [ho, lookupA]
  simp only [Option.getD_some, List.foldl_cons, List.foldl_nil, fillStep, hlook,
    hopen]
  rw [if_neg (by simp), if_neg hrest,
    bookFillPrice_prev_any _ _ _ _ rfl]
  unfold crossFillPrice
  cases hside : o.side
  · rcases ha : tob.best_ask with _ | ask
    · simp
    · by_cases hle : ask ≤ o.price
      · by_cases hlt : ask < o.price
        · simp [hle, hlt]
        · simp [hle, hlt]
      · simp [hle]
  · rcases hb : tob.best_bid with _ | bid
    · simp
    · by_cases hle : o.price ≤ bid
      · by_cases hlt : o.price < bid
        · simp [hle, hlt]
        · simp [hle, hlt]
      · simp [hle]

/-- C5 witness: the theorem applied to a resting BUY at 0.50 against TOB
`{0.49, 0.50}`: it fills at 0.50 (equal, not strictly crossed). -/
theorem onBookCross_fill_iff_crossed_witness :
    (onBook ⟨"on_book_cross", 0, [(0, ⟨0, "m1", .buy, 1/2, 10, 0, .opened, 0⟩)],
        [("m1", [0])], [], 1⟩ "m1" ⟨some (49/100), some 1, some (1/2), some 1, 0⟩ 0).1 =
      [⟨0, "m1", .buy, 1/2, 10, 0⟩] := by
  have h := onBookCross_fill_iff_crossed
    ⟨"on_book_cross", 0, [(0, ⟨0, "m1", .buy, 1/2, 10, 0, .opened, 0⟩)],
      [("m1", [0])], [], 1⟩ "m1" ⟨some (49/100), some 1, some (1/2), some 1, 0⟩ 0
    0 ⟨0, "m1", .buy, 1/2, 10, 0, .opened, 0⟩ rfl rfl (by simp [lookupA]) rfl
    (by simp [restSkip])
  rw [h]
  norm_num

end SuperSpreader

namespace SuperSpreader

/-- C2 (amended): under `maker_touch`, the very first `on_book` call for a
market (no `prev_tob` recorded yet) seeds `prev_tob` with the incoming TOB and
never produces a passive touch-move fill: provided no open order outright
crosses the new TOB, it returns no fills at all.  (A TOB whose `best_ask` is
at or below an open buy order's price can still fill on the first call via
the taker-style crossing branch.) -/
theorem makerTouch_first_book_seeds_and_no_passive_fill
    (s : BrokerState) (market_id : String) (tob : TopOfBook) (now : ℚ)
    (hm : s.fill_model = "maker_touch")
    (hfirst : lookupA s.last_tob market_id = none)
    (hnc : ∀ oid ∈ (lookupA s.by_market market_id).getD [], ∀ o,
      lookupA s.orders oid = some o → o.status = .opened →
      crossFillPrice tob o = none) :
    (onBook s market_id tob now).1 = [] ∧
    lookupA (onBook s market_id tob now).2.last_tob market_id = some tob := by
  simp only [onBook, hm, hfirst]
  norm_num
  rw [foldFill_no_fill _ _ _ _ _ fun oid hmem o ho hopen hrest => by
    rw [bookFillPrice_no_prev]
    exact hnc oid hmem o ho hopen]
  exact ⟨rfl, lookupA_insertA_self _ _ _⟩

/-- C2 counterexample: with `maker_touch` and no `prev_tob` recorded for the
market, the very first `on_book` with TOB `{0.49, 0.50}` fills an open BUY at
0.50 (the crossing branch does not require a `prev_tob`), contradicting the
claim that the first call never produces a fill. -/
theorem makerTouch_first_book_fill_counterexample :
    lookupA (BrokerState.last_tob
      ⟨"maker_touch", 0, [(0, ⟨0, "m1", .buy, 1/2, 10, 0, .opened, 0⟩)],
        [("m1", [0])], [], 1⟩) "m1" = none ∧
    (onBook ⟨"maker_touch", 0, [(0, ⟨0, "m1", .buy, 1/2, 10, 0, .opened, 0⟩)],
        [("m1", [0])], [], 1⟩ "m1" ⟨some (49/100), some 1, some (1/2), some 1, 1⟩ 1).1 =
      [⟨0, "m1", .buy, 1/2, 10, 1⟩] := by
  constructor
  · simp [lookupA]
  · norm_num [onBook, fillStep, lookupA, restSkip, bookFillPrice, crossFillPrice]

/-- C2 witness: the amended theorem applied to a broker whose only open order
is a BUY at 0.30 (not crossing the TOB `{0.49, 0.52}`) on its first BookEvent. -/
theorem makerTouch_first_book_witness :
    (onBook ⟨"maker_touch", 0, [(0, ⟨0, "m1", .buy, 3/10, 10, 0, .opened, 0⟩)],
        [("m1", [0])], [], 1⟩ "m1" ⟨some (49/100), some 1, some (52/100), some 1, 1⟩ 1).1 = [] ∧
    lookupA (onBook ⟨"maker_touch", 0, [(0, ⟨0, "m1", .buy, 3/10, 10, 0, .opened, 0⟩)],
        [("m1", [0])], [], 1⟩ "m1" ⟨some (49/100), some 1, some (52/100), some 1, 1⟩ 1).2.last_tob "m1" =
      some ⟨some (49/100), some 1, some (52/100), some 1, 1⟩ :=
  makerTouch_first_book_seeds_and_no_passive_fill _ "m1" _ 1 rfl (by simp [lookupA])
    (by
      intro oid hmem o ho hopen
      simp [lookupA] at hmem
      subst hmem
      simp [lookupA] at ho
      subst ho
      norm_num [crossFillPrice])

end SuperSpreader

namespace SuperSpreader

/-- C8 (amended): under `on_book_cross`, calling `on_book` twice in a row for
the same market with an identical TOB produces no fills on the second call,
provided no order newly satisfies the `min_rest_secs` gate between the two
calls (in particular whenever `min_rest_secs = 0` or no time passes): every
order that crossed and was rested was already transitioned to filled by the
first call, and every order that did not cross still does not cross. -/
theorem onBookCross_idempotent
    (s : BrokerState) (market_id : String) (tob : TopOfBook) (t1 t2 : ℚ)
    (hm : s.fill_model = "on_book_cross")
    (hrest : ∀ oid o, lookupA s.orders oid = some o →
      restSkip s.min_rest_secs t1 o → restSkip s.min_rest_secs t2 o) :
    (onBook (onBook s market_id tob t1).2 market_id tob t2).1 = [] := by
  simp only [onBook, hm]
  norm_num
  rw [foldFill_no_fill]
  intro oid hmem o ho hopen hr2
  rw [bookFillPrice_prev_any _ _ _ _ rfl]
  have ho' : lookupA (List.foldl
      (fillStep s.min_rest_secs t1
        (bookFillPrice "on_book_cross" tob (lookupA s.last_tob market_id)))
      (s.orders, []) ((lookupA s.by_market market_id).getD [])).1 oid = some o := ho
  have hskip := foldFill_open_skip s.min_rest_secs t1
    (bookFillPrice "on_book_cross" tob (lookupA s.last_tob market_id))
    ((lookupA s.by_market market_id).getD []) (s.orders, []) oid hmem o ho' hopen
  rcases hskip with hsk | hnf
  · obtain ⟨o0, ho0, hcase⟩ := foldFill_lookup_some_inv _ _ _ _ _ _ _ ho'
    rcases hcase with h | h
    · rw [← h] at ho0
      exact absurd (hrest oid o ho0 hsk) hr2
    · rw [h, fillO_status] at hopen
      cases hopen
  · rwa [bookFillPrice_prev_any _ _ _ _ rfl] at hnf

/-- C8 counterexample: with `min_rest_secs = 5`, a BUY at 0.50 placed at t=0
crosses the TOB `{0.49, 0.50}` but is skipped by the rest gate on the first
`on_book` at t=1; the second `on_book` with the identical TOB at t=6 then
produces a fill, so identical repeated BookEvents are not fill-free in
general. -/
theorem onBookCross_second_book_fill_counterexample :
    (onBook (onBook ⟨"on_book_cross", 5, [(0, ⟨0, "m1", .buy, 1/2, 10, 0, .opened, 0⟩)],
        [("m1", [0])], [], 1⟩ "m1" ⟨some (49/100), some 1, some (1/2), some 1, 1⟩ 1).2
      "m1" ⟨some (49/100), some 1, some (1/2), some 1, 1⟩ 6).1 =
      [⟨0, "m1", .buy, 1/2, 10, 6⟩] := by
  norm_num [onBook, fillStep, lookupA, restSkip, bookFillPrice, crossFillPrice,
    insertA, updateA, fillO]

/-- C8 witness: the amended theorem applied to a broker with one crossing and
one non-crossing open order and no rest period: the second identical
BookEvent produces no fills. -/
theorem onBookCross_idempotent_witness :
    (onBook (onBook ⟨"on_book_cross", 0,
        [(0, ⟨0, "m1", .buy, 1/2, 10, 0, .opened, 0⟩),
         (1, ⟨1, "m1", .buy, 3/10, 10, 0, .opened, 0⟩)],
        [("m1", [0, 1])], [], 2⟩ "m1" ⟨some (49/100), some 1, some (1/2), some 1, 1⟩ 1).2
      "m1" ⟨some (49/100), some 1, some (1/2), some 1, 1⟩ 1).1 = [] :=
  onBookCross_idempotent _ "m1" _ 1 1 rfl (fun oid o _ h => h)

end SuperSpreader

namespace SuperSpreader

/-- Blotter well-formedness: recorded fills never exceed the order size and
every order id predates the fresh-id counter (modelling uuid freshness). -/
def BrokerInv (s : BrokerState) : Prop :=
  ∀ oid o, lookupA s.orders oid = some o → o.filled_size ≤ o.size ∧ oid < s.next_id

/-- The `Order` data-model constraint on requests (`size > 0`); only
non-negativity is needed for `filled_size ≤ size`. -/
def opOK : BrokerOp → Prop
  | .place req _ => 0 ≤ req.size
  | _ => True

theorem cancel_next_id (s : BrokerState) (k : ℕ) :
    (cancel s k).next_id = s.next_id := by
  unfold cancel
  rcases hl : lookupA s.orders k with _ | o0 <;> simp only [hl]
  split_ifs <;> rfl

theorem cancel_inv (s : BrokerState) (k : ℕ) (h : BrokerInv s) :
    BrokerInv (cancel s k) := by
  intro oid o hlk
  rw [cancel_next_id]
  unfold cancel at hlk
  rcases hl : lookupA s.orders k with _ | o0 <;> simp only [hl] at hlk
  · exact h oid o hlk
  · by_cases hs : o0.status = .opened
    · rw [if_pos hs] at hlk
      simp only at hlk
      by_cases hk : oid = k
      · subst hk
        rw [lookupA_updateA_self, hl] at hlk
        have ho : o = { o0 with status := OrderStatus.cancelled } := by
          simpa using hlk.symm
        rw [ho]
        exact ⟨(h oid o0 hl).1, (h oid o0 hl).2⟩
      · rw [lookupA_updateA_ne _ _ _ _ hk] at hlk
        exact h oid o hlk
    · rw [if_neg hs] at hlk
      exact h oid o hlk

theorem cancel_frozen (s : BrokerState) (k oid : ℕ) (o : Order)
    (h : lookupA s.orders oid = some o) (hst : o.status ≠ .opened) :
    lookupA (cancel s k).orders oid = some o := by
  unfold cancel
  rcases hl : lookupA s.orders k with _ | o0 <;> simp only [hl]
  · exact h
  · by_cases hs : o0.status = .opened
    · rw [if_pos hs]
      simp only
      by_cases hk : oid = k
      · subst hk
        rw [h] at hl
        cases hl
        exact absurd hs hst
      · rw [lookupA_updateA_ne _ _ _ _ hk]
        exact h
    · rw [if_neg hs]
      exact h

theorem cancelList_inv (l : List ℕ) (s : BrokerState) (h : BrokerInv s) :
    BrokerInv (l.foldl cancel s) := by
  induction l generalizing s with
  | nil => exact h
  | cons a t ih => exact ih _ (cancel_inv s a h)

theorem cancelList_frozen (l : List ℕ) (s : BrokerState) (oid : ℕ) (o : Order)
    (h : lookupA s.orders oid = some o) (hst : o.status ≠ .opened) :
    lookupA (l.foldl cancel s).orders oid = some o := by
  induction l generalizing s with
  | nil => exact h
  | cons a t ih => exact ih _ (cancel_frozen s a oid o h hst)

theorem place_inv (s : BrokerState) (req : OrderRequest) (now : ℚ)
    (h : BrokerInv s) (hsz : 0 ≤ req.size) :
    BrokerInv (placeLimit s req now).2 := by
  intro oid o hlk
  simp only [placeLimit, lookupA] at hlk
  by_cases hk : oid = s.next_id
  · rw [if_pos hk] at hlk
    have ho : o = ⟨s.next_id, req.market_id, req.side, req.price, req.size, now,
        .opened, 0⟩ := by
      simpa using hlk.symm
    rw [ho, hk]
    exact ⟨hsz, Nat.lt_succ_self _⟩
  · rw [if_neg hk] at hlk
    exact ⟨(h oid o hlk).1, Nat.lt_succ_of_lt (h oid o hlk).2⟩

theorem place_frozen (s : BrokerState) (req : OrderRequest) (now : ℚ)
    (oid : ℕ) (o : Order) (hinv : BrokerInv s)
    (h : lookupA s.orders oid = some o) :
    lookupA (placeLimit s req now).2.orders oid = some o := by
  have hne : oid ≠ s.next_id := Nat.ne_of_lt (hinv oid o h).2
  simp only [placeLimit, lookupA]
  rw [if_neg hne]
  exact h

theorem onBook_inv (s : BrokerState) (m : String) (tob : TopOfBook) (now : ℚ)
    (h : BrokerInv s) : BrokerInv (onBook s m tob now).2 := by
  unfold onBook
  split_ifs with hmod
  · exact h
  · intro oid o hlk
    simp only at hlk
    obtain ⟨o0, h0, hc⟩ := foldFill_lookup_some_inv _ _ _ _ _ _ _ hlk
    rcases hc with hc | hc
    · rw [hc]; exact ⟨(h oid o0 h0).1, (h oid o0 h0).2⟩
    · rw [hc]; exact ⟨le_refl _, (h oid o0 h0).2⟩

theorem onBook_frozen (s : BrokerState) (m : String) (tob : TopOfBook) (now : ℚ)
    (oid : ℕ) (o : Order) (h : lookupA s.orders oid = some o)
    (hst : o.status ≠ .opened) :
    lookupA (onBook s m tob now).2.orders oid = some o := by
  unfold onBook
  split_ifs with hmod
  · exact h
  · exact foldFill_preserves_nonopen _ _ _ _ (s.orders, []) oid o h hst

theorem onTrade_inv (s : BrokerState) (m : String) (t : TradeTick) (now : ℚ)
    (h : BrokerInv s) : BrokerInv (onTrade s m t now).2 := by
  unfold onTrade
  split_ifs with hmod
  · exact h
  · intro oid o hlk
    simp only at hlk
    obtain ⟨o0, h0, hc⟩ := foldFill_lookup_some_inv _ _ _ _ _ _ _ hlk
    rcases hc with hc | hc
    · rw [hc]; exact ⟨(h oid o0 h0).1, (h oid o0 h0).2⟩
    · rw [hc]; exact ⟨le_refl _, (h oid o0 h0).2⟩

theorem onTrade_frozen (s : BrokerState) (m : String) (t : TradeTick) (now : ℚ)
    (oid : ℕ) (o : Order) (h : lookupA s.orders oid = some o)
    (hst : o.status ≠ .opened) :
    lookupA (onTrade s m t now).2.orders oid = some o := by
  unfold onTrade
  split_ifs with hmod
  · exact h
  · exact foldFill_preserves_nonopen _ _ _ _ (s.orders, []) oid o h hst

theorem applyOp_inv (s : BrokerState) (op : BrokerOp) (h : BrokerInv s)
    (hop : opOK op) : BrokerInv (applyOp s op) := by
  cases op with
  | place req now => exact place_inv s req now h hop
  | cancelOp oid => exact cancel_inv s oid h
  | cancelAll m => exact cancelList_inv _ s h
  | book m tob now => exact onBook_inv s m tob now h
  | trade m t now => exact onTrade_inv s m t now h

theorem applyOp_frozen (s : BrokerState) (op : BrokerOp) (oid : ℕ) (o : Order)
    (hinv : BrokerInv s) (h : lookupA s.orders oid = some o)
    (hst : o.status ≠ .opened) :
    lookupA (applyOp s op).orders oid = some o := by
  cases op with
  | place req now => exact place_frozen s req now oid o hinv h
  | cancelOp k => exact cancel_frozen s k oid o h hst
  | cancelAll m => exact cancelList_frozen _ s oid o h hst
  | book m tob now => exact onBook_frozen s m tob now oid o h hst
  | trade m t now => exact onTrade_frozen s m t now oid o h hst

theorem applyOps_cons (s : BrokerState) (op : BrokerOp) (t : List BrokerOp) :
    applyOps s (op :: t) = applyOps (applyOp s op) t := rfl

/-- C6: over every sequence of broker operations (place_limit, cancel,
cancel_all_market, on_book, on_trade) from a well-formed blotter with
positive-size requests, every order always satisfies `filled_size ≤ size`,
and an order whose status is `filled` or `cancelled` never changes again
(cancel on it is a no-op and it is never filled). -/
theorem broker_blotter_invariants (s : BrokerState) (ops : List BrokerOp)
    (hinv : BrokerInv s) (hops : ∀ op ∈ ops, opOK op) :
    (∀ oid o, lookupA (applyOps s ops).orders oid = some o →
      o.filled_size ≤ o.size) ∧
    (∀ oid o, lookupA s.orders oid = some o →
      o.status = .filled ∨ o.status = .cancelled →
      lookupA (applyOps s ops).orders oid = some o) := by
  induction ops generalizing s with
  | nil => exact ⟨fun oid o h => (hinv oid o h).1, fun _ _ h _ => h⟩
  | cons op t ih =>
    have h1 := applyOp_inv s op hinv (hops op (List.mem_cons_self op t))
    have hops' : ∀ op' ∈ t, opOK op' :=
      fun op' hm => hops op' (List.mem_cons_of_mem op hm)
    obtain ⟨ha, hb⟩ := ih (applyOp s op) h1 hops'
    rw [applyOps_cons]
    refine ⟨ha, ?_⟩
    intro oid o h hstat
    have hfr := applyOp_frozen s op oid o hinv h
      (by rcases hstat with h' | h' <;> simp [h'])
    exact hb oid o hfr hstat

/-- C6 witness: the invariants applied to a fresh broker through a
place / fill-producing on_book / cancel sequence. -/
theorem broker_blotter_invariants_witness :
    (∀ oid o, lookupA (applyOps ⟨"on_book_cross", 0, [], [], [], 0⟩
        [.place ⟨"m1", .buy, 1/2, 10⟩ 0,
         .book "m1" ⟨some (49/100), some 1, some (1/2), some 1, 0⟩ 0,
         .cancelOp 0]).orders oid = some o →
      o.filled_size ≤ o.size) ∧
    (∀ oid o, lookupA (BrokerState.orders ⟨"on_book_cross", 0, [], [], [], 0⟩) oid = some o →
      o.status = .filled ∨ o.status = .cancelled →
      lookupA (applyOps ⟨"on_book_cross", 0, [], [], [], 0⟩
        [.place ⟨"m1", .buy, 1/2, 10⟩ 0,
         .book "m1" ⟨some (49/100), some 1, some (1/2), some 1, 0⟩ 0,
         .cancelOp 0]).orders oid = some o) :=
  broker_blotter_invariants _ _
    (by intro oid o h; simp [lookupA] at h)
    (by intro op hop; fin_cases hop <;> norm_num [opOK])

end SuperSpreader

namespace SuperSpreader

/-- `storage/sqlite.py` tape row content (the JSON payload is kept opaque). -/
structure TapeRecord : Type where
  ts : ℚ
  market_id : String
  kind : String
  payload : String
deriving DecidableEq

/-- The `WHERE` clause of `iter_tape`: `ts >= start_ts` and `ts <= end_ts`,
each only when the bound is supplied. -/
def tapeInBounds (startTs endTs : Option ℚ) (r : TapeRecord) : Bool :=
  (match startTs with | none => true | some a => decide (a ≤ r.ts)) &&
  (match endTs with | none => true | some b => decide (r.ts ≤ b))

/-- SQL `ORDER BY ts ASC, id ASC` on rows `(id, record)`. -/
def tapeLE (x y : ℕ × TapeRecord) : Bool :=
  decide (x.2.ts < y.2.ts ∨ (x.2.ts = y.2.ts ∧ x.1 ≤ y.1))

/-- `storage/sqlite.py` `SqliteStore.iter_tape`: the tape table holds rows
`(id autoincrement, ts, market_id, kind, payload)` appended in insertion
order (so `id` is the insertion index, modelled by `List.enum`); the query
keeps rows within the optional `[start_ts, end_ts]` bounds and returns them
ordered by `(ts, id)`. -/
def iter_tape (tape : List TapeRecord) (startTs endTs : Option ℚ) :
    List (ℕ × TapeRecord) :=
  ((tape.enum).filter fun x => tapeInBounds startTs endTs x.2).mergeSort tapeLE

theorem tapeLE_trans (a b c : ℕ × TapeRecord) (h1 : tapeLE a b = true)
    (h2 : tapeLE b c = true) : tapeLE a c = true := by
  simp only [tapeLE, decide_eq_true_eq] at h1 h2 ⊢
  rcases h1 with h1 | ⟨h1e, h1i⟩ <;> rcases h2 with h2 | ⟨h2e, h2i⟩
  · exact Or.inl (lt_trans h1 h2)
  · exact Or.inl (h2e ▸ h1)
  · exact Or.inl (h1e ▸ h2)
  · exact Or.inr ⟨h1e.trans h2e, le_trans h1i h2i⟩

theorem tapeLE_total (a b : ℕ × TapeRecord) :
    (tapeLE a b || tapeLE b a) = true := by
  simp only [tapeLE, Bool.or_eq_true, decide_eq_true_eq]
  rcases lt_trichotomy a.2.ts b.2.ts with h | h | h
  · exact Or.inl (Or.inl h)
  · rcases Nat.le_total a.1 b.1 with hi | hi
    · exact Or.inl (Or.inr ⟨h, hi⟩)
    · exact Or.inr (Or.inr ⟨h.symm, hi⟩)
  · exact Or.inr (Or.inl h)

theorem tapeInBounds_iff (startTs endTs : Option ℚ) (r : TapeRecord) :
    tapeInBounds startTs endTs r = true ↔
      ((∀ a, startTs = some a → a ≤ r.ts) ∧ (∀ b, endTs = some b → r.ts ≤ b)) := by
  unfold tapeInBounds
  rcases startTs with _ | a <;> rcases endTs with _ | b <;> simp

/-- C7: for every tape contents and every optional bound `[start_ts, end_ts]`,
`iter_tape` yields exactly the (insertion-indexed) records within the bounds,
in monotonically non-decreasing `ts` order, with records of equal `ts` in
their original insertion order. -/
theorem iter_tape_ordered_stable (tape : List TapeRecord)
    (startTs endTs : Option ℚ) :
    (∀ x, x ∈ iter_tape tape startTs endTs ↔
      (x ∈ tape.enum ∧ (∀ a, startTs = some a → a ≤ x.2.ts) ∧
        (∀ b, endTs = some b → x.2.ts ≤ b))) ∧
    (iter_tape tape startTs endTs).Pairwise (fun x y => x.2.ts ≤ y.2.ts) ∧
    (iter_tape tape startTs endTs).Pairwise
      (fun x y => x.2.ts = y.2.ts → x.1 ≤ y.1) := by
  have hperm := List.mergeSort_perm
    ((tape.enum).filter fun x => tapeInBounds startTs endTs x.2) tapeLE
  have hsorted := List.sorted_mergeSort tapeLE_trans tapeLE_total
    ((tape.enum).filter fun x => tapeInBounds startTs endTs x.2)
  refine ⟨?_, ?_, ?_⟩
  · intro x
    unfold iter_tape
    rw [hperm.mem_iff, List.mem_filter, tapeInBounds_iff]
  · exact hsorted.imp fun h => by
      rcases decide_eq_true_eq.mp h with h' | ⟨h', -⟩
      · exact le_of_lt h'
      · exact le_of_eq h'
  · exact hsorted.imp fun h he => by
      rcases decide_eq_true_eq.mp h with h' | ⟨-, h'⟩
      · exact absurd he (ne_of_lt h')
      · exact h'

end SuperSpreader

namespace SuperSpreader

/-- `utils/pricing.py` `prob_to_price`: clamp to [0,1]. -/
def prob_to_price (p : ℚ) : ℚ := clamp p 0 1

/-- The settings fields consulted by `MarketMakingStrategy.on_market`. -/
structure MMSettings : Type where
  price_tick : ℚ
  disallow_mock_data : Bool
  mm_quote_width : ℚ
  mm_inventory_skew : ℚ
  mm_join_touch : Bool
  max_pos_per_market : ℚ
deriving DecidableEq

/-- `strategies/market_making.py` lines 30-34: `tick = price_tick or 0.001`,
replaced by the 0.001 default unless within `[1e-6, 0.5]`. -/
def effTick (price_tick : ℚ) : ℚ :=
  let t := if price_tick = 0 then 1/1000 else price_tick
  if 1/1000000 ≤ t ∧ t ≤ 1/2 then t else 1/1000

/-- `strategies/market_making.py` `MarketMakingStrategy.on_market`, quote
computation up to the pre-rounding maker constraints (lines 27-96): from the
TOB, the inventory, and the external odds response `(source, fair_prob)`,
compute the candidate `(target_bid, target_ask)` before tick rounding, or
`none` when a TOB side is missing. -/
def mmRawTargets (st : MMSettings) (tob : TopOfBook) (pf : Portfolio)
    (market_id : String) (extSource : String) (extFairProb : ℚ) :
    Option (ℚ × ℚ) :=
  match tob.best_bid, tob.best_ask with
  | some bb, some ba =>
    let tick := effTick st.price_tick
    let mid := (bb + ba) / 2
    let fair :=
      if st.disallow_mock_data then mid
      else if extSource.toLower = "mock" then mid else prob_to_price extFairProb
    let inv : ℚ :=
      match lookupA pf.positions market_id with
      | none => 0
      | some p => p.qty
    let max_pos := max 1 st.max_pos_per_market
    let inv_frac := clamp (inv / max_pos) (-1) 1
    let spread := ba - bb
    let width_cap := max st.mm_quote_width (2 * tick)
    let width := min width_cap (max (spread + 2 * tick) (6 * tick))
    let skew := -inv_frac * st.mm_inventory_skew * width
    let tb0 := clamp (fair + skew - width / 2) tick (1 - tick)
    let ta0 := clamp (fair + skew + width / 2) tick (1 - tick)
    let tb1 := if st.mm_join_touch ∧ inv_frac ≤ 1/4 then max tb0 bb else tb0
    let ta1 := if st.mm_join_touch ∧ inv_frac ≥ -(1/4) then min ta0 ba else ta0
    some (min tb1 (ba - tick), max ta1 (bb + tick))
  | _, _ => none

/-- `strategies/market_making.py` lines 98-112: round the candidate targets
to the tick grid (bid down, ask up), re-apply the `[tick, 1 − tick]` clamps
and the maker non-crossing caps, and return early when the rounded bid is not
strictly below the rounded ask; otherwise produce the pair handed to
`_ensure_quote`. -/
def mmTargets (st : MMSettings) (tob : TopOfBook) (pf : Portfolio)
    (market_id : String) (extSource : String) (extFairProb : ℚ) :
    Option (ℚ × ℚ) :=
  match tob.best_bid, tob.best_ask,
      mmRawTargets st tob pf market_id extSource extFairProb with
  | some bb, some ba, some (tb2, ta2) =>
    let tick := effTick st.price_tick
    let tb3 := (⌊tb2 / tick⌋ : ℚ) * tick
    let ta3 := (⌈ta2 / tick⌉ : ℚ) * tick
    let tb4 := clamp tb3 tick (1 - tick)
    let ta4 := clamp ta3 tick (1 - tick)
    let tb5 := min tb4 (ba - tick)
    let ta5 := max ta4 (bb + tick)
    if tb5 ≥ ta5 then none else some (tb5, ta5)
  | _, _, _ => none

/-- `x` is an integer multiple of the tick. -/
def onTickGrid (x tick : ℚ) : Prop := ∃ n : ℤ, x = n * tick

theorem clamp_choice (x lo hi : ℚ) :
    clamp x lo hi = x ∨ clamp x lo hi = lo ∨ clamp x lo hi = hi := by
  unfold clamp
  rcases max_choice lo (min hi x) with h | h
  · exact Or.inr (Or.inl h)
  · rcases min_choice hi x with h2 | h2
    · exact Or.inr (Or.inr (h.trans h2))
    · exact Or.inl (h.trans h2)

/-- C9 (amended): whenever the market-making strategy reaches a placement,
`target_bid < target_ask` and neither crosses the current TOB by more than
one tick (`target_bid ≤ best_ask − tick`, `target_ask ≥ best_bid + tick`);
each target is an integer multiple of the tick unless one of the safety caps
applied after rounding binds, in which case it can equal `1 − tick`, or
`best_ask − tick` (bid) / `best_bid + tick` (ask), values that need not lie
on the tick grid. -/
theorem mmTargets_placement_bounds
    (st : MMSettings) (tob : TopOfBook) (pf : Portfolio) (market_id : String)
    (extSource : String) (extFairProb : ℚ) (b a bb ba : ℚ)
    (hbb : tob.best_bid = some bb) (hba : tob.best_ask = some ba)
    (h : mmTargets st tob pf market_id extSource extFairProb = some (b, a)) :
    b < a ∧
    b ≤ ba - effTick st.price_tick ∧
    a ≥ bb + effTick st.price_tick ∧
    (onTickGrid b (effTick st.price_tick) ∨ b = 1 - effTick st.price_tick ∨
      b = ba - effTick st.price_tick) ∧
    (onTickGrid a (effTick st.price_tick) ∨ a = 1 - effTick st.price_tick ∨
      a = bb + effTick st.price_tick) := by
  rcases hr : mmRawTargets st tob pf market_id extSource extFairProb
    with _ | ⟨tb2, ta2⟩
  · rw [mmTargets, hbb, hba, hr] at h
    cases h
  · rw [mmTargets, hbb, hba, hr] at h
    simp only at h
    split_ifs at h with hcross
    cases h
    refine ⟨lt_of_not_ge hcross, min_le_right _ _, le_max_right _ _, ?_, ?_⟩
    · rcases min_choice
          (clamp ((⌊tb2 / effTick st.price_tick⌋ : ℚ) * effTick st.price_tick)
            (effTick st.price_tick) (1 - effTick st.price_tick))
          (ba - effTick st.price_tick) with hm | hm
      · rw [hm]
        rcases clamp_choice ((⌊tb2 / effTick st.price_tick⌋ : ℚ) *
            effTick st.price_tick)
            (effTick st.price_tick) (1 - effTick st.price_tick) with hc | hc | hc
        · rw [hc]
          exact Or.inl ⟨_, rfl⟩
        · rw [hc]
          exact Or.inl ⟨1, (one_mul _).symm⟩
        · rw [hc]
          exact Or.inr (Or.inl rfl)
      · rw [hm]
        exact Or.inr (Or.inr rfl)
    · rcases max_choice
          (clamp ((⌈ta2 / effTick st.price_tick⌉ : ℚ) * effTick st.price_tick)
            (effTick st.price_tick) (1 - effTick st.price_tick))
          (bb + effTick st.price_tick) with hm | hm
      · rw [hm]
        rcases clamp_choice ((⌈ta2 / effTick st.price_tick⌉ : ℚ) *
            effTick st.price_tick)
            (effTick st.price_tick) (1 - effTick st.price_tick) with hc | hc | hc
        · rw [hc]
          exact Or.inl ⟨_, rfl⟩
        · rw [hc]
          exact Or.inl ⟨1, (one_mul _).symm⟩
        · rw [hc]
          exact Or.inr (Or.inl rfl)
      · rw [hm]
        exact Or.inr (Or.inr rfl)

end SuperSpreader

namespace SuperSpreader

/-- C9 counterexample: with tick 0.001, TOB `{0.0005, 0.0015}` and book-mid
fair (strict mode, flat inventory), the strategy reaches a placement with
`target_bid = 0.0005`, which is not an integer multiple of the tick: the
post-rounding cap `best_ask − tick = 0.0005` binds and moves the bid off the
tick grid. -/
theorem mmTargets_off_grid_counterexample :
    mmTargets ⟨1/1000, true, 1/50, 1/2, true, 200⟩
      ⟨some (1/2000), some 1, some (3/2000), some 1, 0⟩ ⟨[]⟩ "m1" "src" (7/10) =
      some (1/2000, 2/1000) ∧
    ¬onTickGrid (1/2000) (effTick (1/1000)) := by
  constructor
  · have hraw : mmRawTargets ⟨1/1000, true, 1/50, 1/2, true, 200⟩
        ⟨some (1/2000), some 1, some (3/2000), some 1, 0⟩ ⟨[]⟩ "m1" "src" (7/10) =
        some (1/2000, 3/2000) := by
      norm_num [mmRawTargets, effTick, clamp, prob_to_price, lookupA]
    have hfloor : (⌊(1:ℚ)/2000 / (1/1000)⌋ : ℤ) = 0 := by norm_num
    have hceil : (⌈(3:ℚ)/2000 / (1/1000)⌉ : ℤ) = 2 := by
      norm_num [Int.ceil_eq_iff]
    have hfloor2 : (⌊(1:ℚ)/2⌋ : ℤ) = 0 := by norm_num
    have hceil2 : (⌈(3:ℚ)/2⌉ : ℤ) = 2 := by norm_num [Int.ceil_eq_iff]
    norm_num [mmTargets, hraw, effTick, clamp, hfloor, hceil, hfloor2, hceil2]
  · rintro ⟨n, hn⟩
    rw [show effTick (1/1000) = 1/1000 by norm_num [effTick]] at hn
    have h2 : (2 * n : ℚ) = 1 := by
      field_simp at hn
      linarith
    have h3 : (2 * n : ℤ) = 1 := by exact_mod_cast h2
    omega

/-- C9 witness: the amended theorem applied to TOB `{0.49, 0.51}` with
book-mid fair and flat inventory, where the strategy places `(0.49, 0.51)`. -/
theorem mmTargets_placement_bounds_witness :
    ((49:ℚ)/100) < 51/100 ∧
    (49:ℚ)/100 ≤ 51/100 - effTick (1/1000) ∧
    (51:ℚ)/100 ≥ 49/100 + effTick (1/1000) ∧
    (onTickGrid ((49:ℚ)/100) (effTick (1/1000)) ∨
      (49:ℚ)/100 = 1 - effTick (1/1000) ∨
      (49:ℚ)/100 = 51/100 - effTick (1/1000)) ∧
    (onTickGrid ((51:ℚ)/100) (effTick (1/1000)) ∨
      (51:ℚ)/100 = 1 - effTick (1/1000) ∨
      (51:ℚ)/100 = 49/100 + effTick (1/1000)) := by
  have hraw : mmRawTargets ⟨1/1000, true, 1/50, 1/2, true, 200⟩
      ⟨some (49/100), some 1, some (51/100), some 1, 0⟩ ⟨[]⟩ "m1" "src" (7/10) =
      some (49/100, 51/100) := by
    norm_num [mmRawTargets, effTick, clamp, prob_to_price, lookupA]
  have hfloor : (⌊(49:ℚ)/100 / (1/1000)⌋ : ℤ) = 490 := by norm_num
  have hceil : (⌈(51:ℚ)/100 / (1/1000)⌉ : ℤ) = 510 := by
    norm_num [Int.ceil_eq_iff]
  have hfloor2 : (⌊(490:ℚ)⌋ : ℤ) = 490 := by norm_num
  have hceil2 : (⌈(510:ℚ)⌉ : ℤ) = 510 := by norm_num [Int.ceil_eq_iff]
  have h : mmTargets ⟨1/1000, true, 1/50, 1/2, true, 200⟩
      ⟨some (49/100), some 1, some (51/100), some 1, 0⟩ ⟨[]⟩ "m1" "src" (7/10) =
      some (49/100, 51/100) := by
    norm_num [mmTargets, hraw, effTick, clamp, hfloor, hceil, hfloor2, hceil2]
  exact mmTargets_placement_bounds ⟨1/1000, true, 1/50, 1/2, true, 200⟩
    ⟨some (49/100), some 1, some (51/100), some 1, 0⟩ ⟨[]⟩ "m1" "src" (7/10)
    (49/100) (51/100) (49/100) (51/100) rfl rfl h

end SuperSpreader

namespace SuperSpreader

/-- Python `str.lower()` on ASCII config values, modelled on the character
list. -/
def pyLower (s : String) : String := ⟨s.data.map Char.toLower⟩

/-- Python `str.strip()`, modelled on the character list. -/
def pyStrip (s : String) : String :=
  ⟨((s.data.dropWhile Char.isWhitespace).reverse.dropWhile Char.isWhitespace).reverse⟩

/-- `config/settings.py` `Settings.load` handling of `PAPER_FILL_MODEL`
(lines 226-228): `(env or default).strip().lower()`, then reject any value
outside `{on_book_cross, trade_through}` by raising `ValueError`. -/
def settingsPaperFillModel (env : Option String) : Except String String :=
  let raw := env.getD "on_book_cross"
  let raw := if raw = "" then "on_book_cross" else raw
  let v := pyLower (pyStrip raw)
  if v = "on_book_cross" ∨ v = "trade_through" then Except.ok v
  else Except.error "PAPER_FILL_MODEL must be on_book_cross|trade_through"

/-- `execution/paper.py` line 86: the fill models `PaperBroker.on_book`
reacts to (`self._fill_model not in {"on_book_cross", "maker_touch"}`
returns early). -/
def paperBrokerBookModels : List String := ["on_book_cross", "maker_touch"]

/-- C3: `Settings.load` accepts `on_book_cross` and `trade_through` but
raises `ValueError` for `maker_touch`, even though `maker_touch` is one of
the paper broker's fill models — the failing input of the config-loader bug. -/
theorem settings_load_rejects_maker_touch :
    settingsPaperFillModel (some "maker_touch") =
      Except.error "PAPER_FILL_MODEL must be on_book_cross|trade_through" ∧
    settingsPaperFillModel (some "on_book_cross") = Except.ok "on_book_cross" ∧
    settingsPaperFillModel (some "trade_through") = Except.ok "trade_through" ∧
    settingsPaperFillModel none = Except.ok "on_book_cross" ∧
    "maker_touch" ∈ paperBrokerBookModels := by
  refine ⟨rfl, rfl, rfl, rfl, ?_⟩
  simp [paperBrokerBookModels]

end SuperSpreader
